import Mathlib

/-!
# Permission records and their policy tuples

A shallow embedding of `object/permission.go`: the permission record, the
store operations `getPermission`, `UpdatePermission`, `AddPermission`,
`DeletePermission`, the derived identifier `GetId`, and the synchronizer
`updatePolicies` that expands a record into policy tuples and replaces the
record's earlier tuples in the policy engine.

Global mutable state of the Go program (the table behind `adapter.Engine` and
the working set of `Enforcer`) is passed explicitly. A Go `panic` is the
result `none`.
-/

namespace Casdoor

/-! ## Data model -/

/-- The Go struct `Permission`, field by field. -/
structure Permission where
  Owner : String
  Name : String
  CreatedTime : String
  DisplayName : String
  Users : List String
  Roles : List String
  ResourceType : String
  Resources : List String
  Actions : List String
  Effect : String
  IsEnabled : Bool
deriving DecidableEq, Repr

/-- The two pieces of process-wide state the functions of `permission.go` act on:
the rows of the permission table reached through `adapter.Engine`, and the rules
held by `Enforcer` (each rule a Go `[]string`). -/
structure State where
  permissions : List Permission
  Enforcer : List (List String)
deriving DecidableEq, Repr

/-! ## Go standard library -/

/-- Go `unicode.ToLower` on one rune. Below `utf8.RuneSelf` it maps `A`..`Z` to
`a`..`z` and leaves every other rune alone; above, it looks the rune up in the
Unicode case tables, which are taken here as the parameter `caseTable`. -/
def unicodeToLower (caseTable : Char → Char) (r : Char) : Char :=
  if r.toNat < 128 then
    if 65 ≤ r.toNat ∧ r.toNat ≤ 90 then Char.ofNat (r.toNat + 32) else r
  else caseTable r

/-- Go `strings.ToLower`: every rune of the string mapped through `unicode.ToLower`. -/
def ToLower (caseTable : Char → Char) (s : String) : String :=
  ⟨s.data.map (unicodeToLower caseTable)⟩

/-! ## The policy engine -/

/-- Modelled from the spec: `Enforcer.RemoveFilteredPolicy(fieldIndex, fieldValue)` of the
external policy engine, "remove every existing tuple whose 5th field equals `id` (filtered
removal keyed on that column)". The rules whose field `fieldIndex` equals `fieldValue` are
dropped, the others are kept in place. -/
def RemoveFilteredPolicy (Enforcer : List (List String)) (fieldIndex : Nat)
    (fieldValue : String) : List (List String) :=
  Enforcer.filter (fun rule => rule[fieldIndex]? != some fieldValue)

/-- Modelled from the spec: `Enforcer.AddPolicies(rules)` of the external policy engine,
"then add all newly computed tuples". The rules are appended, none is deduplicated. -/
def AddPolicies (Enforcer : List (List String)) (rules : List (List String)) :
    List (List String) :=
  Enforcer ++ rules

/-! ## The permission table -/

/-- Modelled from the spec: `adapter.Engine.Get(&permission)` on a bean that carries an owner
and a name: the row stored at that composite key, if there is one. -/
def engineGet (rows : List Permission) (owner name : String) : Option Permission :=
  rows.find? (fun row => decide (row.Owner = owner ∧ row.Name = name))

/-- Modelled from the spec: `adapter.Engine.ID(core.PK{owner, name}).AllCols().Update(permission)`,
"overwrites all columns at the composite key". Every row at the key takes all columns of
`permission`, the key columns included; the count of rows written is returned with the new
table. Moving a row onto a key that another row holds violates the primary key: the storage
error is `none`. -/
def engineUpdate (rows : List Permission) (owner name : String) (permission : Permission) :
    Option (Nat × List Permission) :=
  if (engineGet rows owner name).isSome
      ∧ ¬ (permission.Owner = owner ∧ permission.Name = name)
      ∧ (engineGet rows permission.Owner permission.Name).isSome then
    none
  else
    some (rows.countP (fun row => decide (row.Owner = owner ∧ row.Name = name)),
          rows.map (fun row => if row.Owner = owner ∧ row.Name = name then permission else row))

/-- Modelled from the spec: `adapter.Engine.Insert(permission)`: one row is added; a row at
a key already present violates the primary key: the storage error is `none`. -/
def engineInsert (rows : List Permission) (permission : Permission) :
    Option (Nat × List Permission) :=
  if (engineGet rows permission.Owner permission.Name).isSome then none
  else some (1, rows ++ [permission])

/-- Modelled from the spec: `adapter.Engine.ID(core.PK{owner, name}).Delete(&Permission{})`,
"deletes by composite key": the rows at the key are removed and counted. -/
def engineDelete (rows : List Permission) (owner name : String) : Nat × List Permission :=
  (rows.countP (fun row => decide (row.Owner = owner ∧ row.Name = name)),
   rows.filter (fun row => !decide (row.Owner = owner ∧ row.Name = name)))

/-- Modelled from the spec: the first `/` of a rune sequence cuts it into the part before
and the part after; without a separator there are no two parts. -/
def splitFirstSeparator : List Char → Option (List Char × List Char)
  | [] => none
  | c :: cs =>
    if c = '/' then some ([], cs)
    else
      match splitFirstSeparator cs with
      | some (before, after) => some (c :: before, after)
      | none => none

/-- Modelled from the spec: `util.GetOwnerAndNameFromId`, "parsing splits on the first
separator into exactly two parts". An id without a separator makes the helper give up
(`none`). -/
def GetOwnerAndNameFromId (id : String) : Option (String × String) :=
  match splitFirstSeparator id.data with
  | some (owner, name) => some (⟨owner⟩, ⟨name⟩)
  | none => none

/-! ## `permission.go` -/

/-- The method `GetId`: `fmt.Sprintf("%s/%s", permission.Owner, permission.Name)`. -/
def Permission.GetId (permission : Permission) : String :=
  permission.Owner ++ "/" ++ permission.Name

/-- The local variable `policies` of `updatePolicies` once both loop nests have run. The
Go loops are folds that thread the slice; every iteration of an innermost loop appends one
`[]string` of five fields. -/
def policies (caseTable : Char → Char) (permission : Permission) : List (List String) :=
  let id := permission.Owner ++ "/" ++ permission.Name
  let policies : List (List String) := []
  let policies :=
    permission.Users.foldl (fun policies user =>
      permission.Resources.foldl (fun policies resource =>
        permission.Actions.foldl (fun policies action =>
          policies ++ [[user, resource, ToLower caseTable action,
            ToLower caseTable permission.Effect, id]]) policies) policies) policies
  let policies :=
    permission.Roles.foldl (fun policies role =>
      permission.Resources.foldl (fun policies resource =>
        permission.Actions.foldl (fun policies action =>
          policies ++ [[role, resource, ToLower caseTable action,
            ToLower caseTable permission.Effect, id]]) policies) policies) policies
  policies

/-- The function `updatePolicies`, acting on the rules of `Enforcer`: build `policies`, call
`Enforcer.RemoveFilteredPolicy(4, id)`, then `Enforcer.AddPolicies(policies)`. -/
def updatePolicies (caseTable : Char → Char) (permission : Permission)
    (Enforcer : List (List String)) : List (List String) :=
  let id := permission.Owner ++ "/" ++ permission.Name
  let policies := policies caseTable permission
  let Enforcer := RemoveFilteredPolicy Enforcer 4 id
  AddPolicies Enforcer policies

/-- The function `getPermission`: no lookup for an empty owner or name, otherwise the row
found by `adapter.Engine.Get`, or nil. -/
def getPermission (rows : List Permission) (owner name : String) : Option Permission :=
  if owner = "" ∨ name = "" then none
  else
    match engineGet rows owner name with
    | some permission => some permission
    | none => none

/-- The function `UpdatePermission`. The helper `util.GetOwnerAndNameFromId` lives outside
`permission.go` and is the parameter `parseId`. The result is the returned boolean with the
state left behind, or `none` when the Go code panics. -/
def UpdatePermission (caseTable : Char → Char) (parseId : String → Option (String × String))
    (id : String) (permission : Permission) (s : State) : Option (Bool × State) :=
  match parseId id with
  | none => none
  | some (owner, name) =>
    if (getPermission s.permissions owner name).isNone then some (false, s)
    else
      match engineUpdate s.permissions owner name permission with
      | none => none
      | some (affected, rows) =>
        if affected ≠ 0 then
          some (true, ⟨rows, updatePolicies caseTable permission s.Enforcer⟩)
        else
          some (false, ⟨rows, s.Enforcer⟩)

/-- The function `AddPermission`: insert, then `updatePolicies` when a row was written. -/
def AddPermission (caseTable : Char → Char) (permission : Permission) (s : State) :
    Option (Bool × State) :=
  match engineInsert s.permissions permission with
  | none => none
  | some (affected, rows) =>
    if affected ≠ 0 then
      some (true, ⟨rows, updatePolicies caseTable permission s.Enforcer⟩)
    else
      some (false, ⟨rows, s.Enforcer⟩)

/-- The function `DeletePermission`: delete the row at the key of `permission`; `Enforcer`
is not mentioned in its body. -/
def DeletePermission (permission : Permission) (s : State) : Bool × State :=
  let (affected, rows) := engineDelete s.permissions permission.Owner permission.Name
  (decide (affected ≠ 0), ⟨rows, s.Enforcer⟩)

/-! ## Reference definitions, in the words of the specification -/

/-- The expansion as the specification words it: "for every principal in `users ∪ roles`
(users first, then roles, in their stored order), for every resource in `resources`, for
every action in `actions`, emit tuple `(principal, resource, lowercase(action),
lowercase(effect), id)`". -/
def expandSpec (caseTable : Char → Char) (R : Permission) : List (List String) :=
  (R.Users ++ R.Roles).flatMap (fun principal =>
    R.Resources.flatMap (fun resource =>
      R.Actions.map (fun action =>
        [principal, resource, ToLower caseTable action, ToLower caseTable R.Effect,
          R.Owner ++ "/" ++ R.Name])))

/-- The record of the specification's scenario: owner `o1`, name `p1`, one user, no role,
one resource, actions `Read` and `Write`, effect `Allow`. -/
def scenarioRecord : Permission :=
  { Owner := "o1", Name := "p1", CreatedTime := "", DisplayName := "",
    Users := ["o1/alice"], Roles := [], ResourceType := "",
    Resources := ["res1"], Actions := ["Read", "Write"], Effect := "Allow",
    IsEnabled := true }


/-- A store with the scenario record and its two tuples in the engine. -/
def scenarioState : State :=
  ⟨[scenarioRecord], [["o1/alice", "res1", "read", "allow", "o1/p1"],
                      ["o1/alice", "res1", "write", "allow", "o1/p1"]]⟩

/-- The scenario record with its resources changed to `res2` and its actions to `Read`. -/
def scenarioEdited : Permission :=
  { scenarioRecord with Resources := ["res2"], Actions := ["Read"] }

/-- The scenario record edited as in `scenarioEdited` and renamed to `p2`. -/
def scenarioRenamed : Permission :=
  { scenarioRecord with Name := "p2", Resources := ["res2"], Actions := ["Read"] }

/-- The scenario record disabled, with other descriptive fields. -/
def scenarioDisabled : Permission :=
  { scenarioRecord with IsEnabled := false, ResourceType := "api", DisplayName := "P1",
                        CreatedTime := "2021-01-01" }

/-- The scenario record with no action. -/
def scenarioNoActions : Permission :=
  { scenarioRecord with Actions := [] }

/-- The scenario record with no user and one role. -/
def scenarioRolesOnly : Permission :=
  { scenarioRecord with Users := [], Roles := ["o1/admin"] }

/-- A record whose owner holds a separator: owner `a/b`, name `c`. -/
def slashOwnerRecord : Permission :=
  { scenarioRecord with Owner := "a/b", Name := "c" }

/-- A record whose name holds a separator: owner `a`, name `b/c`. -/
def slashNameRecord : Permission :=
  { scenarioRecord with Owner := "a", Name := "b/c" }

/-! ## Loops as folds -/

/-- A loop whose every iteration appends a block that depends only on the loop variable
produces the start value followed by the blocks in order. -/
theorem foldl_append_blocks {α β : Type} (step : List β → α → List β) (block : α → List β)
    (hstep : ∀ acc x, step acc x = acc ++ block x) (l : List α) (init : List β) :
    l.foldl step init = init ++ l.flatMap block := by
  induction l generalizing init with
  | nil => simp
  | cons x xs ih => simp [List.foldl_cons, hstep, ih, List.flatMap_cons, List.append_assoc]

/-- One loop nest of `updatePolicies` (principal, then resource, then action), started on
the slice `init`. -/
theorem loopNest_eq (entry : String → String → String → List String)
    (principals resources actions : List String) (init : List (List String)) :
    principals.foldl (fun policies principal =>
      resources.foldl (fun policies resource =>
        actions.foldl (fun policies action =>
          policies ++ [entry principal resource action]) policies) policies) init
      = init ++ principals.flatMap (fun principal =>
          resources.flatMap (fun resource => actions.map (entry principal resource))) := by
  apply foldl_append_blocks
  intro acc principal
  apply foldl_append_blocks
  intro acc resource
  rw [foldl_append_blocks _ (fun action => [entry principal resource action]) (fun _ _ => rfl)]
  congr 1
  induction actions with
  | nil => rfl
  | cons a as ih => simp [List.flatMap_cons, ih]

/-- The slice built by the two loop nests is the reference expansion. -/
theorem policies_eq_expandSpec (caseTable : Char → Char) (R : Permission) :
    policies caseTable R = expandSpec caseTable R := by
  unfold policies expandSpec
  simp only []
  rw [loopNest_eq (fun principal resource action =>
        [principal, resource, ToLower caseTable action, ToLower caseTable R.Effect,
          R.Owner ++ "/" ++ R.Name]),
      loopNest_eq (fun principal resource action =>
        [principal, resource, ToLower caseTable action, ToLower caseTable R.Effect,
          R.Owner ++ "/" ++ R.Name])]
  simp [List.flatMap_append]

/-- Membership in the slice built by `updatePolicies`. -/
theorem mem_policies_iff (caseTable : Char → Char) (R : Permission) (t : List String) :
    t ∈ policies caseTable R ↔
      ∃ principal ∈ R.Users ++ R.Roles, ∃ resource ∈ R.Resources, ∃ action ∈ R.Actions,
        t = [principal, resource, ToLower caseTable action, ToLower caseTable R.Effect,
          R.Owner ++ "/" ++ R.Name] := by
  rw [policies_eq_expandSpec]
  unfold expandSpec
  simp only [List.mem_flatMap, List.mem_map]
  constructor
  · rintro ⟨p, hp, r, hr, a, ha, rfl⟩
    exact ⟨p, hp, r, hr, a, ha, rfl⟩
  · rintro ⟨p, hp, r, hr, a, ha, rfl⟩
    exact ⟨p, hp, r, hr, a, ha, rfl⟩

/-- Every tuple of the slice carries the derived identifier in its fifth field. -/
theorem policies_tag (caseTable : Char → Char) (R : Permission) (t : List String)
    (ht : t ∈ policies caseTable R) : t[4]? = some (R.Owner ++ "/" ++ R.Name) := by
  obtain ⟨p, _, r, _, a, _, rfl⟩ := (mem_policies_iff caseTable R t).1 ht
  rfl

/-- Length of the slice built by `updatePolicies`. -/
theorem length_policies (caseTable : Char → Char) (R : Permission) :
    (policies caseTable R).length
      = (R.Users.length + R.Roles.length) * R.Resources.length * R.Actions.length := by
  rw [policies_eq_expandSpec]
  unfold expandSpec
  simp [List.length_flatMap, Function.comp_def, Nat.mul_assoc, Nat.add_mul]
/-! ## The synchronizer on the engine -/

/-- The rules left by `updatePolicies`: the rules of other records, then the new slice. -/
theorem updatePolicies_eq (caseTable : Char → Char) (R : Permission) (E : List (List String)) :
    updatePolicies caseTable R E
      = E.filter (fun t => t[4]? != some (R.Owner ++ "/" ++ R.Name)) ++ policies caseTable R :=
  rfl

/-- Filtering the new slice on the record's identifier keeps all of it. -/
theorem filter_tag_policies (caseTable : Char → Char) (R : Permission) :
    (policies caseTable R).filter (fun t => t[4]? == some (R.Owner ++ "/" ++ R.Name))
      = policies caseTable R := by
  apply List.filter_eq_self.2
  intro t ht
  simp [policies_tag caseTable R t ht]

/-- Filtering the new slice on anything but the record's identifier leaves nothing. -/
theorem filter_untagged_policies (caseTable : Char → Char) (R : Permission)
    (q : List String → Bool) (hq : ∀ t, t[4]? = some (R.Owner ++ "/" ++ R.Name) → q t = false) :
    (policies caseTable R).filter q = [] := by
  apply List.filter_eq_nil_iff.2
  intro t ht
  simp [hq t (policies_tag caseTable R t ht)]

/-- The rules tagged with the record's identifier after `updatePolicies` are the new slice. -/
theorem filter_tag_updatePolicies (caseTable : Char → Char) (R : Permission)
    (E : List (List String)) :
    (updatePolicies caseTable R E).filter (fun t => t[4]? == some (R.Owner ++ "/" ++ R.Name))
      = policies caseTable R := by
  rw [updatePolicies_eq, List.filter_append, List.filter_filter, filter_tag_policies]
  have h : E.filter (fun t => (t[4]? == some (R.Owner ++ "/" ++ R.Name))
      && (t[4]? != some (R.Owner ++ "/" ++ R.Name))) = [] := by
    apply List.filter_eq_nil_iff.2
    intro t _
    simp
  rw [h, List.nil_append]

/-- The rules that `RemoveFilteredPolicy` keeps are kept again by a second `updatePolicies`. -/
theorem filter_untagged_updatePolicies (caseTable : Char → Char) (R : Permission)
    (E : List (List String)) :
    (updatePolicies caseTable R E).filter (fun t => t[4]? != some (R.Owner ++ "/" ++ R.Name))
      = E.filter (fun t => t[4]? != some (R.Owner ++ "/" ++ R.Name)) := by
  rw [updatePolicies_eq, List.filter_append, List.filter_filter,
    filter_untagged_policies caseTable R _ (fun t ht => by simp [ht]), List.append_nil]
  apply List.filter_congr
  intro t _
  simp

/-- Rules tagged with another identifier pass through `updatePolicies` untouched. -/
theorem filter_other_updatePolicies (caseTable : Char → Char) (R : Permission)
    (E : List (List String)) (other : String) (hother : other ≠ R.Owner ++ "/" ++ R.Name) :
    (updatePolicies caseTable R E).filter (fun t => t[4]? == some other)
      = E.filter (fun t => t[4]? == some other) := by
  rw [updatePolicies_eq, List.filter_append, List.filter_filter,
    filter_untagged_policies caseTable R _ (fun t ht => by simpa [ht] using Ne.symm hother),
    List.append_nil]
  apply List.filter_congr
  intro t _
  by_cases h : t[4]? = some other
  · simp [h, hother]
  · simp [h]

/-- C1: after `updatePolicies R` the engine holds the tuples of `E` whose 5th field differs
from `R.owner + "/" + R.name`, followed by the tuples expanded from `R`; the tuples tagged
with that identifier are exactly the expansion of `R`; the tuples tagged with any other
identifier are the ones `E` had; when the resources of `R` are `{B}` no tuple tagged with
the identifier has another object `A`; and on the specification's scenario record the
tuples tagged `o1/p1` are the `read` and the `write` tuple and no other. -/
theorem updatePolicies_replaces_tagged_tuples (caseTable : Char → Char) (R : Permission)
    (E : List (List String)) :
    updatePolicies caseTable R E
        = E.filter (fun t => t[4]? != some (R.Owner ++ "/" ++ R.Name)) ++ policies caseTable R
    ∧ (updatePolicies caseTable R E).filter (fun t => t[4]? == some (R.Owner ++ "/" ++ R.Name))
        = policies caseTable R
    ∧ (∀ other : String, other ≠ R.Owner ++ "/" ++ R.Name →
        (updatePolicies caseTable R E).filter (fun t => t[4]? == some other)
          = E.filter (fun t => t[4]? == some other))
    ∧ (∀ A B : String, R.Resources = [B] → A ≠ B →
        ∀ t ∈ updatePolicies caseTable R E,
          t[4]? = some (R.Owner ++ "/" ++ R.Name) → t[1]? ≠ some A)
    ∧ (updatePolicies caseTable scenarioRecord E).filter (fun t => t[4]? == some "o1/p1")
        = [["o1/alice", "res1", "read", "allow", "o1/p1"],
           ["o1/alice", "res1", "write", "allow", "o1/p1"]] := by
  refine ⟨rfl, filter_tag_updatePolicies caseTable R E,
    fun other h => filter_other_updatePolicies caseTable R E other h, ?_, ?_⟩
  · intro A B hB hAB t ht htag
    have hmem : t ∈ (updatePolicies caseTable R E).filter
        (fun t => t[4]? == some (R.Owner ++ "/" ++ R.Name)) := by
      simp [List.mem_filter, ht, htag]
    rw [filter_tag_updatePolicies] at hmem
    obtain ⟨p, _, r, hr, a, _, rfl⟩ := (mem_policies_iff caseTable R t).1 hmem
    rw [hB] at hr
    have hrB : r = B := by simpa using hr
    subst hrB
    simpa using Ne.symm hAB
  · exact filter_tag_updatePolicies caseTable scenarioRecord E

/-- C2: the tuple list built by `updatePolicies` is the reference list (principals: users
then roles, outer loop; resources, middle loop; actions, inner loop; each combination
emitted as principal, resource, lowercase action, lowercase effect, identifier); the 5th
field of every emitted tuple is the derived identifier of the record; the action `Read`
and the effect `Allow` are emitted as `read` and `allow`. -/
theorem policies_refines_expandSpec (caseTable : Char → Char) (R : Permission) :
    policies caseTable R = expandSpec caseTable R
    ∧ (∀ t ∈ policies caseTable R, t[4]? = some R.GetId)
    ∧ (∀ t ∈ policies caseTable
          { R with Users := ["u"], Roles := [], Resources := ["r"], Actions := ["Read"],
                   Effect := "Allow" },
        t[2]? = some "read" ∧ t[3]? = some "allow")
    ∧ ToLower caseTable "Read" = "read" ∧ ToLower caseTable "Allow" = "allow" := by
  refine ⟨policies_eq_expandSpec caseTable R, fun t ht => policies_tag caseTable R t ht,
    ?_, rfl, rfl⟩
  intro t ht
  obtain ⟨p, _, r, _, a, ha, rfl⟩ := (mem_policies_iff caseTable _ t).1 ht
  have haR : a = "Read" := by simpa using ha
  subst haR
  exact ⟨rfl, rfl⟩

/-- C3: the number of tuples the expansion produces is
`(|users| + |roles|) * |resources| * |actions|`, with nothing deduplicated: a user listed
twice with the actions `Read` and `read` gives four copies of one tuple. -/
theorem policies_length (caseTable : Char → Char) (R : Permission) :
    (policies caseTable R).length
        = (R.Users.length + R.Roles.length) * R.Resources.length * R.Actions.length
    ∧ policies caseTable
        { R with Users := ["u", "u"], Roles := [], Resources := ["r"],
                 Actions := ["Read", "read"], Effect := "Allow" }
        = List.replicate 4 ["u", "r", "read", "allow", R.Owner ++ "/" ++ R.Name] :=
  ⟨length_policies caseTable R, rfl⟩

/-- C4: running `updatePolicies R` twice in a row leaves the engine with the rules of one
run, as a multiset (and in the same order); no tuple gains a copy. -/
theorem updatePolicies_idempotent (caseTable : Char → Char) (R : Permission)
    (E : List (List String)) :
    List.Perm (updatePolicies caseTable R (updatePolicies caseTable R E))
        (updatePolicies caseTable R E)
    ∧ (∀ t, (updatePolicies caseTable R (updatePolicies caseTable R E)).count t
        = (updatePolicies caseTable R E).count t)
    ∧ updatePolicies caseTable R (updatePolicies caseTable R E) = updatePolicies caseTable R E := by
  have h : updatePolicies caseTable R (updatePolicies caseTable R E)
      = updatePolicies caseTable R E := by
    rw [updatePolicies_eq caseTable R (updatePolicies caseTable R E),
      filter_untagged_updatePolicies]
    rfl
  exact ⟨by rw [h], fun t => by rw [h], h⟩

/-! ## The store operations -/

/-- The lookup `getPermission` finds nothing when no row sits at the key. -/
theorem getPermission_eq_none_of_absent (rows : List Permission) (owner name : String)
    (habsent : ∀ row ∈ rows, ¬ (row.Owner = owner ∧ row.Name = name)) :
    getPermission rows owner name = none := by
  unfold getPermission
  split
  · rfl
  · have hget : engineGet rows owner name = none := by
      unfold engineGet
      apply List.find?_eq_none.2
      intro row hrow
      simpa using habsent row hrow
    rw [hget]

/-- When `UpdatePermission` returns true, the engine it leaves is the one `updatePolicies`
builds from the replacement record. -/
theorem UpdatePermission_true_Enforcer (caseTable : Char → Char)
    (parseId : String → Option (String × String)) (id : String) (R : Permission)
    (s s' : State) (hret : UpdatePermission caseTable parseId id R s = some (true, s')) :
    s'.Enforcer = updatePolicies caseTable R s.Enforcer := by
  unfold UpdatePermission at hret
  split at hret
  · simp at hret
  · split at hret
    · simp at hret
    · split at hret
      · simp at hret
      · split at hret
        · simp only [Option.some.injEq, Prod.mk.injEq, true_and] at hret
          rw [← hret]
        · simp at hret

/-- C5 (amended): when the replacement record `R` keeps the key, `R.owner + "/" + R.name = id`,
and `UpdatePermission(id, R)` returns true, the engine tuples whose 5th field equals `id` are
exactly the tuples expanded from `R`, so every tuple tagged `id` that is left is one of the
expansion of `R`, and the tuples tagged with another identifier are untouched. -/
theorem UpdatePermission_rederives_tuples (caseTable : Char → Char)
    (parseId : String → Option (String × String)) (id : String) (R : Permission)
    (s s' : State) (hkey : R.Owner ++ "/" ++ R.Name = id)
    (hret : UpdatePermission caseTable parseId id R s = some (true, s')) :
    s'.Enforcer.filter (fun t => t[4]? == some id) = policies caseTable R
    ∧ (∀ t ∈ s'.Enforcer, t[4]? = some id → t ∈ policies caseTable R)
    ∧ (∀ other : String, other ≠ id →
        s'.Enforcer.filter (fun t => t[4]? == some other)
          = s.Enforcer.filter (fun t => t[4]? == some other)) := by
  have hE := UpdatePermission_true_Enforcer caseTable parseId id R s s' hret
  subst hkey
  rw [hE]
  refine ⟨filter_tag_updatePolicies caseTable R s.Enforcer, ?_,
    fun other h => filter_other_updatePolicies caseTable R s.Enforcer other h⟩
  intro t ht htag
  have hmem : t ∈ (updatePolicies caseTable R s.Enforcer).filter
      (fun t => t[4]? == some (R.Owner ++ "/" ++ R.Name)) := by
    simp [List.mem_filter, ht, htag]
  rwa [filter_tag_updatePolicies] at hmem

/-- Witness for C5: the scenario record, stored and expanded, is replaced by an edit that
keeps its key; the update returns true and the tuples tagged `o1/p1` are the expansion of
the edit. -/
theorem UpdatePermission_rederives_tuples_witness :
    scenarioEdited.Owner ++ "/" ++ scenarioEdited.Name = "o1/p1"
    ∧ UpdatePermission (fun r => r) GetOwnerAndNameFromId "o1/p1" scenarioEdited scenarioState
        = some (true, ⟨[scenarioEdited], [["o1/alice", "res2", "read", "allow", "o1/p1"]]⟩)
    ∧ ([["o1/alice", "res2", "read", "allow", "o1/p1"]] : List (List String)).filter
          (fun t => t[4]? == some "o1/p1")
        = policies (fun r => r) scenarioEdited :=
  ⟨by decide, by decide,
    (UpdatePermission_rederives_tuples (fun r => r) GetOwnerAndNameFromId "o1/p1"
      scenarioEdited scenarioState
      ⟨[scenarioEdited], [["o1/alice", "res2", "read", "allow", "o1/p1"]]⟩
      (by decide) (by decide)).1⟩

/-- Counterexample for C5 as stated: a record exists at `o1/p1`, the replacement record
carries the name `p2`, `UpdatePermission("o1/p1", R)` returns true, and the engine tuples
whose 5th field is `o1/p1` are still the two tuples of the previous contents, not the
expansion of `R`. -/
theorem UpdatePermission_rename_leaves_old_tuples :
    getPermission scenarioState.permissions "o1" "p1" = some scenarioRecord
    ∧ UpdatePermission (fun r => r) GetOwnerAndNameFromId "o1/p1" scenarioRenamed scenarioState
        = some (true, ⟨[scenarioRenamed],
            [["o1/alice", "res1", "read", "allow", "o1/p1"],
             ["o1/alice", "res1", "write", "allow", "o1/p1"],
             ["o1/alice", "res2", "read", "allow", "o1/p2"]]⟩)
    ∧ ([["o1/alice", "res1", "read", "allow", "o1/p1"],
        ["o1/alice", "res1", "write", "allow", "o1/p1"],
        ["o1/alice", "res2", "read", "allow", "o1/p2"]] : List (List String)).filter
          (fun t => t[4]? == some "o1/p1")
        = [["o1/alice", "res1", "read", "allow", "o1/p1"],
           ["o1/alice", "res1", "write", "allow", "o1/p1"]]
    ∧ policies (fun r => r) scenarioRenamed = [["o1/alice", "res2", "read", "allow", "o1/p2"]] := by
  decide

/-- C6: when no record is stored at the (owner, name) parsed from `id`, `UpdatePermission`
returns false and leaves the store and the engine as they were. -/
theorem UpdatePermission_nonexistent (caseTable : Char → Char)
    (parseId : String → Option (String × String)) (id : String) (R : Permission) (s : State)
    (owner name : String) (hparse : parseId id = some (owner, name))
    (habsent : ∀ row ∈ s.permissions, ¬ (row.Owner = owner ∧ row.Name = name)) :
    UpdatePermission caseTable parseId id R s = some (false, s) := by
  unfold UpdatePermission
  rw [hparse]
  simp [getPermission_eq_none_of_absent s.permissions owner name habsent]

/-- Witness for C6: updating `o1/p9` in the scenario state, where only `o1/p1` is stored. -/
theorem UpdatePermission_nonexistent_witness :
    GetOwnerAndNameFromId "o1/p9" = some ("o1", "p9")
    ∧ (∀ row ∈ scenarioState.permissions, ¬ (row.Owner = "o1" ∧ row.Name = "p9"))
    ∧ UpdatePermission (fun r => r) GetOwnerAndNameFromId "o1/p9" scenarioEdited scenarioState
        = some (false, scenarioState) :=
  ⟨by decide, by decide,
    UpdatePermission_nonexistent (fun r => r) GetOwnerAndNameFromId "o1/p9" scenarioEdited
      scenarioState "o1" "p9" (by decide) (by decide)⟩

/-- C7: `DeletePermission(R)` removes from the store exactly the rows at the key
(R.owner, R.name), returns true iff such a row was there to remove, and leaves the engine
as it was; the tuples expanded from `R` before the deletion are all still in the engine. -/
theorem DeletePermission_leaves_Enforcer (caseTable : Char → Char) (R : Permission)
    (s : State) :
    (∀ row, row ∈ (DeletePermission R s).2.permissions
        ↔ row ∈ s.permissions ∧ ¬ (row.Owner = R.Owner ∧ row.Name = R.Name))
    ∧ (DeletePermission R s).2.permissions
        = s.permissions.filter (fun row => !decide (row.Owner = R.Owner ∧ row.Name = R.Name))
    ∧ ((DeletePermission R s).1 = true
        ↔ ∃ row ∈ s.permissions, row.Owner = R.Owner ∧ row.Name = R.Name)
    ∧ (DeletePermission R s).2.Enforcer = s.Enforcer
    ∧ ((DeletePermission R ⟨s.permissions, updatePolicies caseTable R s.Enforcer⟩).2.Enforcer).filter
          (fun t => t[4]? == some (R.Owner ++ "/" ++ R.Name))
        = policies caseTable R := by
  refine ⟨?_, rfl, ?_, rfl, ?_⟩
  · intro row
    simp only [DeletePermission, engineDelete, List.mem_filter, Bool.not_eq_true',
      decide_eq_false_iff_not]
  · simp [DeletePermission, engineDelete, List.countP_eq_zero]
  · exact filter_tag_updatePolicies caseTable R s.Enforcer

/-! ## The derived identifier -/

/-- Two rune sequences cut at a separator agree piecewise when the parts before the
separator hold no separator. -/
theorem append_separator_inj (a b c d : List Char) (ha : '/' ∉ a) (hc : '/' ∉ c)
    (h : a ++ '/' :: b = c ++ '/' :: d) : a = c ∧ b = d := by
  induction a generalizing c with
  | nil =>
    cases c with
    | nil => simpa using h
    | cons y c =>
      simp only [List.nil_append, List.cons_append, List.cons.injEq] at h
      exact absurd (by simp [← h.1]) hc
  | cons x a ih =>
    cases c with
    | nil =>
      simp only [List.nil_append, List.cons_append, List.cons.injEq] at h
      exact absurd (by simp [h.1]) ha
    | cons y c =>
      simp only [List.cons_append, List.cons.injEq] at h
      have hrec := ih c (fun hm => ha (List.mem_cons_of_mem _ hm))
        (fun hm => hc (List.mem_cons_of_mem _ hm)) h.2
      exact ⟨by rw [h.1, hrec.1], hrec.2⟩

/-- The same with the parts after the separator free of separators. -/
theorem append_separator_inj_right (a b c d : List Char) (hb : '/' ∉ b) (hd : '/' ∉ d)
    (h : a ++ '/' :: b = c ++ '/' :: d) : a = c ∧ b = d := by
  have hrev : b.reverse ++ '/' :: a.reverse = d.reverse ++ '/' :: c.reverse := by
    have := congrArg List.reverse h
    simpa using this
  have hres := append_separator_inj b.reverse a.reverse d.reverse c.reverse
    (by simpa using hb) (by simpa using hd) hrev
  exact ⟨List.reverse_injective hres.2, List.reverse_injective hres.1⟩

/-- The runes of a derived identifier. -/
theorem data_GetId (R : Permission) : R.GetId.data = R.Owner.data ++ '/' :: R.Name.data := by
  simp [Permission.GetId, String.data_append]

/-- C8 (amended): two records with different (owner, name) pairs whose owners hold no `/`
(or whose names hold no `/`) have different identifiers, from `GetId` and from the
expression in `updatePolicies` alike, and no tuple is in the expansion of both. -/
theorem GetId_ne_of_key_ne (caseTable : Char → Char) (R1 R2 : Permission)
    (hsep : ('/' ∉ R1.Owner.data ∧ '/' ∉ R2.Owner.data)
      ∨ ('/' ∉ R1.Name.data ∧ '/' ∉ R2.Name.data))
    (hne : (R1.Owner, R1.Name) ≠ (R2.Owner, R2.Name)) :
    R1.GetId ≠ R2.GetId
    ∧ R1.Owner ++ "/" ++ R1.Name ≠ R2.Owner ++ "/" ++ R2.Name
    ∧ (∀ t ∈ policies caseTable R1, t ∉ policies caseTable R2) := by
  have hid : R1.GetId ≠ R2.GetId := by
    intro heq
    have hdata : R1.Owner.data ++ '/' :: R1.Name.data = R2.Owner.data ++ '/' :: R2.Name.data := by
      rw [← data_GetId, ← data_GetId, heq]
    have hparts : R1.Owner.data = R2.Owner.data ∧ R1.Name.data = R2.Name.data := by
      rcases hsep with ⟨h1, h2⟩ | ⟨h1, h2⟩
      · exact append_separator_inj _ _ _ _ h1 h2 hdata
      · exact append_separator_inj_right _ _ _ _ h1 h2 hdata
    apply hne
    rw [Prod.mk.injEq]
    exact ⟨String.ext hparts.1, String.ext hparts.2⟩
  refine ⟨hid, hid, ?_⟩
  intro t h1 h2
  have e1 := policies_tag caseTable R1 t h1
  have e2 := policies_tag caseTable R2 t h2
  rw [e1] at e2
  exact hid (Option.some.inj e2)

/-- Witness for C8: the records `o1/p1` and `o1/p2`. -/
theorem GetId_ne_of_key_ne_witness :
    (('/' ∉ scenarioRecord.Owner.data ∧ '/' ∉ scenarioRenamed.Owner.data)
      ∨ ('/' ∉ scenarioRecord.Name.data ∧ '/' ∉ scenarioRenamed.Name.data))
    ∧ (scenarioRecord.Owner, scenarioRecord.Name) ≠ (scenarioRenamed.Owner, scenarioRenamed.Name)
    ∧ scenarioRecord.GetId ≠ scenarioRenamed.GetId :=
  ⟨by decide, by decide,
    (GetId_ne_of_key_ne (fun r => r) scenarioRecord scenarioRenamed (by decide) (by decide)).1⟩

/-- Counterexample for C8 as stated: owner `a/b` with name `c` and owner `a` with name `b/c`
are different keys with the one identifier `a/b/c`. -/
theorem GetId_collision :
    (slashOwnerRecord.Owner, slashOwnerRecord.Name) ≠ (slashNameRecord.Owner, slashNameRecord.Name)
    ∧ slashOwnerRecord.GetId = slashNameRecord.GetId
    ∧ slashOwnerRecord.GetId = "a/b/c" := by
  decide

/-! ## Fields the expansion does not read -/

/-- C9: two records that agree on owner, name, users, roles, resources, actions and effect
get the same tuple list and leave the same engine, whatever their isEnabled, resourceType,
displayName and createdTime are. -/
theorem updatePolicies_ignores_IsEnabled (caseTable : Char → Char) (R1 R2 : Permission)
    (E : List (List String)) (hOwner : R1.Owner = R2.Owner) (hName : R1.Name = R2.Name)
    (hUsers : R1.Users = R2.Users) (hRoles : R1.Roles = R2.Roles)
    (hResources : R1.Resources = R2.Resources) (hActions : R1.Actions = R2.Actions)
    (hEffect : R1.Effect = R2.Effect) :
    policies caseTable R1 = policies caseTable R2
    ∧ updatePolicies caseTable R1 E = updatePolicies caseTable R2 E := by
  have hp : policies caseTable R1 = policies caseTable R2 := by
    simp only [policies, hOwner, hName, hUsers, hRoles, hResources, hActions, hEffect]
  refine ⟨hp, ?_⟩
  simp only [updatePolicies, hp, hOwner, hName]

/-- Witness for C9: the scenario record enabled, and disabled with other descriptive
fields. -/
theorem updatePolicies_ignores_IsEnabled_witness :
    scenarioRecord.IsEnabled = true ∧ scenarioDisabled.IsEnabled = false
    ∧ policies (fun r => r) scenarioRecord = policies (fun r => r) scenarioDisabled
    ∧ updatePolicies (fun r => r) scenarioRecord scenarioState.Enforcer
        = updatePolicies (fun r => r) scenarioDisabled scenarioState.Enforcer :=
  ⟨rfl, rfl,
    updatePolicies_ignores_IsEnabled (fun r => r) scenarioRecord scenarioDisabled
      scenarioState.Enforcer rfl rfl rfl rfl rfl rfl rfl⟩

/-! ## Empty lists -/

/-- C10 (amended): when users and roles are both empty, or resources is empty, or actions is
empty, the expansion yields zero tuples, and after `updatePolicies` the engine holds no tuple
tagged with the identifier of the record. -/
theorem policies_eq_nil_of_empty (caseTable : Char → Char) (R : Permission)
    (E : List (List String))
    (hempty : (R.Users = [] ∧ R.Roles = []) ∨ R.Resources = [] ∨ R.Actions = []) :
    policies caseTable R = []
    ∧ (updatePolicies caseTable R E).filter (fun t => t[4]? == some (R.Owner ++ "/" ++ R.Name))
        = []
    ∧ (∀ t ∈ updatePolicies caseTable R E, t[4]? ≠ some (R.Owner ++ "/" ++ R.Name)) := by
  have hnil : policies caseTable R = [] := by
    apply List.eq_nil_of_length_eq_zero
    rw [length_policies]
    rcases hempty with ⟨hu, hr⟩ | hres | hact
    · simp [hu, hr]
    · simp [hres]
    · simp [hact]
  have hfilter := filter_tag_updatePolicies caseTable R E
  rw [hnil] at hfilter
  refine ⟨hnil, hfilter, ?_⟩
  intro t ht htag
  have hmem : t ∈ (updatePolicies caseTable R E).filter
      (fun t => t[4]? == some (R.Owner ++ "/" ++ R.Name)) := by
    simp [List.mem_filter, ht, htag]
  rw [hfilter] at hmem
  exact absurd hmem (List.not_mem_nil t)

/-- Witness for C10: the scenario record with its actions emptied, updated in the scenario
state, leaves no tuple tagged `o1/p1`. -/
theorem policies_eq_nil_of_empty_witness :
    ((scenarioNoActions.Users = [] ∧ scenarioNoActions.Roles = [])
      ∨ scenarioNoActions.Resources = [] ∨ scenarioNoActions.Actions = [])
    ∧ policies (fun r => r) scenarioNoActions = []
    ∧ updatePolicies (fun r => r) scenarioNoActions scenarioState.Enforcer = [] :=
  ⟨by decide,
    (policies_eq_nil_of_empty (fun r => r) scenarioNoActions scenarioState.Enforcer
      (by decide)).1,
    by decide⟩

/-- Counterexample for C10 as stated: the scenario record has no role, and its expansion
has two tuples, both in the engine after `updatePolicies` and tagged `o1/p1`. -/
theorem policies_nonempty_with_empty_Roles :
    scenarioRecord.Roles = []
    ∧ (policies (fun r => r) scenarioRecord).length = 2
    ∧ updatePolicies (fun r => r) scenarioRecord []
        = [["o1/alice", "res1", "read", "allow", "o1/p1"],
           ["o1/alice", "res1", "write", "allow", "o1/p1"]]
    ∧ scenarioRolesOnly.Users = []
    ∧ policies (fun r => r) scenarioRolesOnly
        = [["o1/admin", "res1", "read", "allow", "o1/p1"],
           ["o1/admin", "res1", "write", "allow", "o1/p1"]] := by
  decide

end Casdoor
